import Mathlib

/-!
Shallow embedding of the `cmds-lite` repository (minimal `cat` and `ls`
clones, Rust) together with proofs checking the natural-language
specification against the code.

The embedding translates the Rust sources:
  * `src/cat.rs`  — option record, argument parsing, per-line formatting
    and the per-file processing loop;
  * `src/ls.rs`   — option record, entry filtering, simple/long
    formatting, sorting of the collected entries and `run`;
  * `src/main.rs` — the `ls` binary's target-path selection.
Filesystem and standard streams are opaque I/O primitives; they are
modelled as explicit inputs (a path → file-content map for `cat`, a
record of path predicates and directory contents for `ls`).  Printing is
modelled by returning the list of emitted lines.
-/

namespace CmdsLite

/-! ## `cat`: option record (src/cat.rs, `CatOptions` and `Default`) -/

structure CatOptions where
  number_lines : Bool
  number_nonblank_lines : Bool
  show_ends : Bool
  show_tabs : Bool
  squeeze_blank : Bool
deriving DecidableEq, Repr

def CatOptions.default : CatOptions :=
  { number_lines := false
    number_nonblank_lines := false
    show_ends := false
    show_tabs := false
    squeeze_blank := false }

/-! ## String helpers

`rjust w s` models Rust's `format!("{:>w}", s)` / `format!("{:w}", num)`
right-justification: pad on the left with spaces to a minimum width `w`.
`replaceTab` models `str::replace('\t', "^I")`: the pattern is a single
character, so the replacement is the character-wise substitution. -/

def rjust (w : Nat) (s : String) : String :=
  String.mk (List.replicate (w - s.length) ' ') ++ s

/-- Models Rust's `s.starts_with(c)` for a single character `c`: the
first character of the string equals `c`. -/
def firstCharIs (s : String) (c : Char) : Bool :=
  match s.data with
  | [] => false
  | a :: _ => a = c

/-- Models Rust's `line.trim().is_empty()`: trimming removes leading and
trailing whitespace, so the trimmed line is empty exactly when every
character is whitespace.  (Lean's `Char.isWhitespace` covers the ASCII
whitespace of the inputs considered here.) -/
def isBlankLine (line : String) : Bool :=
  line.data.all Char.isWhitespace

/-- Lexicographic order on character lists by codepoint, modelling
Rust's byte-lexicographic `str::cmp` (on valid UTF-8, byte order and
codepoint order agree): `a ≤ b` iff `a` is a prefix of `b` or the first
differing character is smaller in `a`. -/
def charListLe : List Char → List Char → Bool
  | [], _ => true
  | _ :: _, [] => false
  | a :: as, b :: bs =>
    if a = b then charListLe as bs
    else decide (a.toNat < b.toNat)

def replaceTabChars : List Char → List Char
  | [] => []
  | c :: cs =>
    if c = '\t' then '^' :: 'I' :: replaceTabChars cs
    else c :: replaceTabChars cs

def replaceTab (s : String) : String :=
  String.mk (replaceTabChars s.data)

/-! ## `cat`: line formatting (src/cat.rs, `format_line`) -/

def format_line (line : String) (line_number : Option Nat) (options : CatOptions) : String :=
  let result : String :=
    match line_number with
    | some num => rjust 6 (toString num) ++ "\t"
    | none => ""
  let processed_line : String :=
    if options.show_tabs then replaceTab line else line
  let result := result ++ processed_line
  if options.show_ends then result ++ "$" else result

/-! ## `cat`: per-line processing (src/cat.rs, `StandardLineProcessor::process_line`)

The Rust method prints one line and mutates the counter; the embedding
returns the printed line together with the new counter value. -/

def process_line (line : String) (line_number : Nat) (options : CatOptions) :
    String × Nat :=
  let is_blank := isBlankLine line
  if options.number_nonblank_lines && is_blank then
    (format_line line none options, line_number)
  else if options.number_lines || (options.number_nonblank_lines && !is_blank) then
    (format_line line (some line_number) options, line_number + 1)
  else
    (format_line line none options, line_number)

/-- The loop over the lines of one input, threading the counter
(src/cat.rs, loop bodies of `read_file` and `read_stdin`). -/
def processLines (lines : List String) (line_number : Nat) (options : CatOptions) :
    List String :=
  match lines with
  | [] => []
  | l :: ls =>
    let r := process_line l line_number options
    r.1 :: processLines ls r.2 options

/-- `StandardFileReader::read_file` on a file whose lines are `lines`:
the counter is initialised to 1 for this file. -/
def read_file (lines : List String) (options : CatOptions) : List String :=
  processLines lines 1 options

/-! ## `cat`: the run loop (src/cat.rs, `CatCommand::run`)

A path either does not exist, exists but fails to open, or holds lines. -/

inductive CatFile where
  | absent
  | unreadable (err : String)
  | file (lines : List String)
deriving DecidableEq, Repr

/-- One iteration of the `for file_path in files` loop: the pair is
(stdout lines, stderr lines) contributed by this path. -/
def catFileStep (fs : String → CatFile) (options : CatOptions) (p : String) :
    List String × List String :=
  match fs p with
  | .absent => ([], ["cat: " ++ p ++ ": No such file or directory"])
  | .unreadable e => ([], ["cat: " ++ p ++ ": " ++ e])
  | .file lines => (read_file lines options, [])

/-- The whole `for` loop of `CatCommand::run`, concatenating the output
of the files in order. -/
def catLoop (fs : String → CatFile) (options : CatOptions) :
    List String → List String × List String
  | [] => ([], [])
  | p :: ps =>
    let r := catFileStep fs options p
    let rest := catLoop fs options ps
    (r.1 ++ rest.1, r.2 ++ rest.2)

/-- `CatCommand::run` (hence the public `run`): reads stdin when the
path list is empty, otherwise runs the loop; the loop itself never
returns an error. `stdin` is `.error e` when reading stdin fails. -/
def cat_run (fs : String → CatFile) (stdin : Except String (List String))
    (files : List String) (options : CatOptions) :
    Except String (List String × List String) :=
  if files.isEmpty then
    match stdin with
    | .error e => .error e
    | .ok ls => .ok (processLines ls 1 options, [])
  else
    .ok (catLoop fs options files)

/-- Exit status of the `cat` binary (src/cat.rs, `main`): 1 when `run`
returns an error, 0 otherwise. -/
def catMainExit (fs : String → CatFile) (stdin : Except String (List String))
    (files : List String) (options : CatOptions) : Nat :=
  match cat_run fs stdin files options with
  | .ok _ => 0
  | .error _ => 1

/-! ## `cat`: argument parsing (src/cat.rs, `main`) -/

/-- One flag character of the `match flag` in `main`; returns the
updated options and the stderr diagnostics (empty or one line). -/
def applyCatFlag (options : CatOptions) (c : Char) : CatOptions × List String :=
  if c = 'n' then ({ options with number_lines := true }, [])
  else if c = 'b' then
    ({ options with number_nonblank_lines := true, number_lines := false }, [])
  else if c = 'E' then ({ options with show_ends := true }, [])
  else if c = 'T' then ({ options with show_tabs := true }, [])
  else if c = 'A' then ({ options with show_ends := true, show_tabs := true }, [])
  else if c = 's' then ({ options with squeeze_blank := true }, [])
  else (options, ["cat: invalid option -- '" ++ String.mk [c] ++ "'"])

/-- Folding `applyCatFlag` over a list of flag characters. -/
def applyCatFlags (options : CatOptions) : List Char → CatOptions × List String
  | [] => (options, [])
  | c :: cs =>
    let r := applyCatFlag options c
    let rest := applyCatFlags r.1 cs
    (rest.1, r.2 ++ rest.2)

/-- Whether a token is treated as a flag token by `cat`'s `main`:
`arg.starts_with('-') && arg.len() > 1`. -/
def isCatFlagToken (arg : String) : Bool :=
  firstCharIs arg '-' && arg.length > 1

/-- The argument loop of `cat`'s `main` over `args[1..]`: returns the
parsed options, the positional file list in order, and the stderr
diagnostics. -/
def parseCatArgs (args : List String) : CatOptions × List String × List String :=
  args.foldl
    (fun acc arg =>
      if isCatFlagToken arg then
        let r := applyCatFlags acc.1 (arg.data.drop 1)
        (r.1, acc.2.1, acc.2.2 ++ r.2)
      else
        (acc.1, acc.2.1 ++ [arg], acc.2.2))
    (CatOptions.default, [], [])

/-- The flag characters processed by `parseCatArgs`, in processing
order. -/
def flagChars (args : List String) : List Char :=
  (args.filter isCatFlagToken).flatMap (fun arg => arg.data.drop 1)

/-! ## `ls`: option record and `FileEntry` (src/ls.rs) -/

structure LsOptions where
  show_hidden : Bool
  long_format : Bool
deriving DecidableEq, Repr

def LsOptions.default : LsOptions :=
  { show_hidden := false, long_format := false }

/-- A directory entry snapshot: the name plus the metadata fields
actually consulted by the code (`is_dir`, `len`, the modified timestamp
in epoch seconds, and the permission mode bits). -/
structure FileEntry where
  name : String
  is_dir : Bool
  size : Nat
  modified : Nat
  mode : Nat
deriving DecidableEq, Repr

/-- `FileEntry::is_hidden`: the name starts with `.`. -/
def FileEntry.is_hidden (e : FileEntry) : Bool :=
  firstCharIs e.name '.'

/-- `HiddenFilter::should_include`. -/
def should_include (show_hidden : Bool) (e : FileEntry) : Bool :=
  show_hidden || !e.is_hidden

/-- `SimpleFormatter::format`: directories as `name/`, others bare. -/
def simpleFormat (e : FileEntry) : String :=
  if e.is_dir then e.name ++ "/" else e.name

/-- The 10-character permission string built by `LongFormatter::format`:
type character, then the nine `rwx` characters tested against octal
masks of the mode. -/
def permString (is_dir : Bool) (mode : Nat) : String :=
  String.mk [
    if is_dir then 'd' else '-',
    if mode &&& 0o400 ≠ 0 then 'r' else '-',
    if mode &&& 0o200 ≠ 0 then 'w' else '-',
    if mode &&& 0o100 ≠ 0 then 'x' else '-',
    if mode &&& 0o040 ≠ 0 then 'r' else '-',
    if mode &&& 0o020 ≠ 0 then 'w' else '-',
    if mode &&& 0o010 ≠ 0 then 'x' else '-',
    if mode &&& 0o004 ≠ 0 then 'r' else '-',
    if mode &&& 0o002 ≠ 0 then 'w' else '-',
    if mode &&& 0o001 ≠ 0 then 'x' else '-' ]

/-- `LongFormatter::format`: `format!("{} {:>8} {:>12} {}", ...)`. -/
def longFormat (e : FileEntry) : String :=
  permString e.is_dir e.mode ++ " " ++ rjust 8 (toString e.size) ++ " " ++
    rjust 12 (toString e.modified) ++ " " ++ e.name

/-- The formatter selected by `run` from `long_format`. -/
def formatEntry (options : LsOptions) (e : FileEntry) : String :=
  if options.long_format then longFormat e else simpleFormat e

/-- `FileCollector::collect_entries` on the entries the filesystem
enumerates (in arbitrary order): snapshot them, then
`sort_by(|a, b| a.name.cmp(&b.name))` — a stable sort by name. -/
def collect_entries (entries : List FileEntry) : List FileEntry :=
  entries.mergeSort (fun a b => charListLe a.name.data b.name.data)

/-- `FileProcessor::process`: print the formatted entry for each entry
accepted by every filter (the only filter `run` installs is the hidden
filter, passed here as `keep`). -/
def processEntries (fmt : FileEntry → String) (keep : FileEntry → Bool) :
    List FileEntry → List String
  | [] => []
  | e :: es =>
    if keep e then fmt e :: processEntries fmt keep es
    else processEntries fmt keep es

/-! ## `ls`: `Path::file_name` and the filesystem interface

`Path::file_name` returns the last path component when it is a normal
component: `/`-separated tokens are parsed, empty and `.` tokens are
skipped, and a final `..` yields `None` (so `a/b/` → `b`, `a/..` →
`None`, `.` → `None`, `/` → `None`). -/

def splitSlash : List Char → List (List Char)
  | [] => [[]]
  | c :: cs =>
    match splitSlash cs with
    | [] => [[]]
    | t :: ts => if c = '/' then [] :: t :: ts else (c :: t) :: ts

def fileName (p : String) : Option String :=
  let tokens := ((splitSlash p.data).map String.mk).filter (fun s => s != "" && s != ".")
  match tokens.getLast? with
  | some s => if s = ".." then none else some s
  | none => none

/-- The filesystem as `ls` observes it: existence and directory tests on
paths, and the enumeration (in the filesystem's own order) of a
directory's entries. -/
structure LsFs where
  pathExists : String → Bool
  isDir : String → Bool
  entries : String → List FileEntry

inductive IoErrorKind where
  | notFound
  | other
deriving DecidableEq, Repr

/-- Outcome of `ls::run` as observed by `main`: success, an `io::Error`
(kind plus message), or a panic (the `unwrap` in the non-directory
branch). -/
inductive LsResult where
  | ok
  | ioErr (kind : IoErrorKind) (msg : String)
  | panicked (msg : String)
deriving DecidableEq, Repr

/-- `ls::run` (src/ls.rs): the pair is (stdout lines, outcome). -/
def ls_run (fs : LsFs) (dir_path : String) (options : LsOptions) :
    List String × LsResult :=
  if !fs.pathExists dir_path then
    ([], .ioErr .notFound "Path does not exist")
  else if !fs.isDir dir_path then
    match fileName dir_path with
    | some n => ([n], .ok)
    | none => ([], .panicked "called Option::unwrap on a None value")
  else
    (processEntries (formatEntry options) (should_include options.show_hidden)
      (collect_entries (fs.entries dir_path)), .ok)

/-- Exit status of the `ls` binary (src/main.rs): 1 when `run` returns
an error, 101 on a panic (the Rust runtime's abort status), else 0. -/
def lsMainExit (fs : LsFs) (dir_path : String) (options : LsOptions) : Nat :=
  match (ls_run fs dir_path options).2 with
  | .ok => 0
  | .ioErr _ _ => 1
  | .panicked _ => 101

/-- Stderr of the `ls` binary: `eprintln!("Error: {}", e)` on an error,
the runtime's message on a panic, nothing on success. -/
def lsMainStderr (fs : LsFs) (dir_path : String) (options : LsOptions) : List String :=
  match (ls_run fs dir_path options).2 with
  | .ok => []
  | .ioErr _ msg => ["Error: " ++ msg]
  | .panicked msg => [msg]

/-- Target-path selection in the `ls` binary's `main` (src/main.rs):
`args` includes the program name at index 0, and the target is
`args[1]` whenever there is more than one element, `.` otherwise. -/
def ls_dir_path (args : List String) : String :=
  match args with
  | _ :: a :: _ => a
  | _ => "."

/-- One flag character of the `ls` option loop in `main`. -/
def applyLsFlag (options : LsOptions) (c : Char) : LsOptions :=
  if c = 'a' then { options with show_hidden := true }
  else if c = 'l' then { options with long_format := true }
  else options

/-- The option loop of the `ls` binary's `main` over `args[1..]`:
every argument starting with `-` contributes its remaining characters
as flags (there is no length guard here, unlike `cat`). -/
def parseLsArgs (args : List String) : LsOptions :=
  (args.drop 1).foldl
    (fun o arg =>
      if firstCharIs arg '-' then (arg.data.drop 1).foldl applyLsFlag o else o)
    LsOptions.default

/-- The stdout lines `ls::run` produces in the directory branch (the
body after `collect_entries`): format every sorted entry accepted by
the hidden filter. -/
def lsDirOutput (options : LsOptions) (entries : List FileEntry) : List String :=
  processEntries (formatEntry options) (should_include options.show_hidden)
    (collect_entries entries)

/-- Environment assumption about the operating system: a path that
exists and is not a directory always has a final name component (paths
whose `file_name` is `None` — `/`, `.`, `..`, `a/..`, … — can only
resolve to directories on POSIX). -/
def PosixFileNames (fs : LsFs) : Prop :=
  ∀ q : String, fs.pathExists q = true → fs.isDir q = false →
    (fileName q).isSome = true

/-! ## Spec-side definitions

Modelled from the spec: used only to compare the code's behaviour
against the specification text (refinement), never as the embedding of
the source. -/

/-- Modelled from the spec: a blank line "contains only whitespace
after trimming, or is empty" (§4.1, glossary) — trimming drops leading
and trailing whitespace, and the result must be empty. -/
def blankSpec (line : String) : Bool :=
  line == "" ||
    (((line.data.dropWhile Char.isWhitespace).reverse.dropWhile
      Char.isWhitespace).reverse).isEmpty

/-- Modelled from the spec: the §4.1 formatting rule for one raw line
given the counter state — the three numbered cases in order. -/
def processLineSpec (line : String) (counter : Nat) (options : CatOptions) :
    String × Nat :=
  if options.number_nonblank_lines && blankSpec line then
    (format_line line none options, counter)
  else if options.number_lines || (options.number_nonblank_lines && !blankSpec line) then
    (format_line line (some counter) options, counter + 1)
  else
    (format_line line none options, counter)

/-- Modelled from the spec: "every tab character in the line content is
replaced with the two-character sequence `^I`" (§4.1). -/
def tabSubstSpec (s : String) : String :=
  String.mk (s.data.flatMap (fun ch => if ch = '\t' then ['^', 'I'] else [ch]))

/-- Modelled from the spec: per-line formatting as §4.1 describes it —
optional counter prefix (right-justified in 6 characters, then a tab),
then the content with tab substitution exactly when `show_tabs` (never
touching the prefix), then a final `$` exactly when `show_ends`. -/
def formatLineSpec (line : String) (line_number : Option Nat) (options : CatOptions) :
    String :=
  (match line_number with
   | some num => rjust 6 (toString num) ++ "\t"
   | none => "") ++
  (if options.show_tabs then tabSubstSpec line else line) ++
  (if options.show_ends then "$" else "")

/-! ## Concrete fixtures used by the witness theorems -/

def fsCatW : String → CatFile := fun p =>
  if p = "one.txt" then .file ["a", "", "b"]
  else if p = "two.txt" then .file ["x"]
  else .absent

def entsW : List FileEntry :=
  [⟨".git", true, 10, 5, 0o755⟩, ⟨"a.txt", false, 3, 7, 0o644⟩, ⟨"b", true, 1, 2, 0o755⟩]

def entsW' : List FileEntry :=
  [⟨"b", true, 1, 2, 0o755⟩, ⟨".git", true, 10, 5, 0o755⟩, ⟨"a.txt", false, 3, 7, 0o644⟩]

def fsLsDirW : LsFs :=
  { pathExists := fun q => q == "d"
    isDir := fun q => q == "d"
    entries := fun _ => entsW }

def fsLsFileW : LsFs :=
  { pathExists := fun q => q == "notes/a.txt"
    isDir := fun _ => false
    entries := fun _ => [] }

def fsLsEmptyW : LsFs :=
  { pathExists := fun _ => false
    isDir := fun _ => false
    entries := fun _ => [] }

/-! # Helper lemmas -/

theorem char_toNat_inj {a b : Char} (h : a.toNat = b.toNat) : a = b :=
  Char.ext (UInt32.ext h)

theorem charListLe_total : ∀ (x y : List Char), (charListLe x y || charListLe y x) = true
  | [], _ => by simp [charListLe]
  | _ :: _, [] => by simp [charListLe]
  | a :: as, b :: bs => by
    by_cases hab : a = b
    · subst hab
      simpa [charListLe] using charListLe_total as bs
    · have hba : ¬ b = a := fun h => hab h.symm
      have hne : a.toNat ≠ b.toNat := fun h => hab (char_toNat_inj h)
      simp only [charListLe, if_neg hab, if_neg hba, Bool.or_eq_true, decide_eq_true_eq]
      omega

theorem charListLe_trans : ∀ (x y z : List Char),
    charListLe x y = true → charListLe y z = true → charListLe x z = true
  | [], _, z => by intro _ _; cases z <;> simp [charListLe]
  | _ :: _, [], _ => by intro h _; simp [charListLe] at h
  | _ :: _, _ :: _, [] => by intro _ h; simp [charListLe] at h
  | a :: as, b :: bs, c :: cs => by
    intro h1 h2
    by_cases hab : a = b <;> by_cases hbc : b = c
    · subst hab; subst hbc
      simp only [charListLe, if_pos rfl] at h1 h2 ⊢
      exact charListLe_trans as bs cs h1 h2
    · subst hab
      simp only [charListLe, if_pos rfl, if_neg hbc] at h1 h2 ⊢
      exact h2
    · subst hbc
      simp only [charListLe, if_pos rfl, if_neg hab] at h1 h2 ⊢
      exact h1
    · simp only [charListLe, if_neg hab, if_neg hbc, decide_eq_true_eq] at h1 h2
      by_cases hac : a = c
      · subst hac; exfalso; omega
      · simp only [charListLe, if_neg hac, decide_eq_true_eq]
        omega

theorem charListLe_antisymm : ∀ (x y : List Char),
    charListLe x y = true → charListLe y x = true → x = y
  | [], [] => by intro _ _; rfl
  | [], _ :: _ => by intro _ h; simp [charListLe] at h
  | _ :: _, [] => by intro h _; simp [charListLe] at h
  | a :: as, b :: bs => by
    intro h1 h2
    by_cases hab : a = b
    · subst hab
      simp only [charListLe, if_pos rfl] at h1 h2
      rw [charListLe_antisymm as bs h1 h2]
    · have hba : ¬ b = a := fun h => hab h.symm
      simp only [charListLe, if_neg hab, if_neg hba, decide_eq_true_eq] at h1 h2
      exfalso; omega

theorem replaceTabChars_eq_flatMap (l : List Char) :
    replaceTabChars l = l.flatMap (fun ch => if ch = '\t' then ['^', 'I'] else [ch]) := by
  induction l with
  | nil => rfl
  | cons c cs ih =>
    by_cases h : c = '\t' <;> simp [replaceTabChars, h, ih]

theorem replaceTab_eq_tabSubstSpec (s : String) : replaceTab s = tabSubstSpec s := by
  simp [replaceTab, tabSubstSpec, replaceTabChars_eq_flatMap]

theorem blankSpec_eq (line : String) : blankSpec line = isBlankLine line := by
  unfold blankSpec isBlankLine
  cases hall : line.data.all Char.isWhitespace with
  | true =>
    have h1 : line.data.dropWhile Char.isWhitespace = [] := by
      rw [List.dropWhile_eq_nil_iff]
      exact fun x hx => List.all_eq_true.mp hall x hx
    simp [h1]
  | false =>
    have hx : ∃ x ∈ line.data, ¬ Char.isWhitespace x = true := by
      by_contra hcon
      push_neg at hcon
      have : line.data.all Char.isWhitespace = true :=
        List.all_eq_true.mpr (fun x hx => by simpa using hcon x hx)
      rw [this] at hall
      cases hall
    obtain ⟨x, hxmem, hxw⟩ := hx
    have hxdrop : x ∈ line.data.dropWhile Char.isWhitespace := by
      have hsplit := List.takeWhile_append_dropWhile (p := Char.isWhitespace) (l := line.data)
      rw [← hsplit] at hxmem
      rcases List.mem_append.mp hxmem with h | h
      · exact absurd (List.mem_takeWhile_imp h) hxw
      · exact h
    have hne : ((line.data.dropWhile Char.isWhitespace).reverse.dropWhile
        Char.isWhitespace) ≠ [] := by
      rw [Ne, List.dropWhile_eq_nil_iff]
      intro hcon
      exact hxw (hcon x (List.mem_reverse.mpr hxdrop))
    have hdata : line.data ≠ [] := by
      intro hcon; rw [hcon] at hxmem; cases hxmem
    have hline : (line == "") = false := by
      rw [beq_eq_false_iff_ne]
      intro hcon
      exact hdata (by rw [hcon])
    simp [hline, hne]

theorem catLoop_append (fs : String → CatFile) (opts : CatOptions) (xs ys : List String) :
    catLoop fs opts (xs ++ ys) =
      ((catLoop fs opts xs).1 ++ (catLoop fs opts ys).1,
       (catLoop fs opts xs).2 ++ (catLoop fs opts ys).2) := by
  induction xs with
  | nil => simp [catLoop]
  | cons p ps ih => simp [catLoop, ih]

theorem processEntries_eq_filter_map (fmt : FileEntry → String)
    (keep : FileEntry → Bool) (l : List FileEntry) :
    processEntries fmt keep l = (l.filter keep).map fmt := by
  induction l with
  | nil => rfl
  | cons e es ih =>
    cases h : keep e <;> simp [processEntries, h, ih, List.filter_cons]

theorem processLines_length (lines : List String) (c : Nat) (opts : CatOptions) :
    (processLines lines c opts).length = lines.length := by
  induction lines generalizing c with
  | nil => rfl
  | cons l ls ih => simp [processLines, ih]

theorem process_line_squeeze (l : String) (n : Nat) (opts : CatOptions) (b : Bool) :
    process_line l n { opts with squeeze_blank := b } = process_line l n opts := rfl

theorem processLines_squeeze (lines : List String) (c : Nat) (opts : CatOptions) (b : Bool) :
    processLines lines c { opts with squeeze_blank := b } = processLines lines c opts := by
  induction lines generalizing c with
  | nil => rfl
  | cons l ls ih =>
    simp only [processLines, process_line_squeeze, ih]

theorem catLoop_squeeze (fs : String → CatFile) (opts : CatOptions) (b : Bool)
    (files : List String) :
    catLoop fs { opts with squeeze_blank := b } files = catLoop fs opts files := by
  induction files with
  | nil => rfl
  | cons p ps ih =>
    have hstep : catFileStep fs { opts with squeeze_blank := b } p = catFileStep fs opts p := by
      unfold catFileStep
      cases fs p with
      | absent => rfl
      | unreadable e => rfl
      | file lines =>
        simp only [read_file, processLines_squeeze]
    simp only [catLoop, hstep, ih]

theorem flagChars_cons (a : String) (as : List String) :
    flagChars (a :: as) =
      (if isCatFlagToken a then a.data.drop 1 else []) ++ flagChars as := by
  cases h : isCatFlagToken a <;> simp [flagChars, List.filter_cons, h]

theorem applyCatFlags_fst_append (opts : CatOptions) (cs ds : List Char) :
    (applyCatFlags opts (cs ++ ds)).1 = (applyCatFlags (applyCatFlags opts cs).1 ds).1 := by
  induction cs generalizing opts with
  | nil => rfl
  | cons c cs ih => simp [applyCatFlags, ih]

theorem parseCatArgs_loop (args : List String) (opts : CatOptions) (files errs : List String) :
    (args.foldl
      (fun acc arg =>
        if isCatFlagToken arg then
          let r := applyCatFlags acc.1 (arg.data.drop 1)
          (r.1, acc.2.1, acc.2.2 ++ r.2)
        else
          (acc.1, acc.2.1 ++ [arg], acc.2.2))
      (opts, files, errs)).1 = (applyCatFlags opts (flagChars args)).1 := by
  induction args generalizing opts files errs with
  | nil => rfl
  | cons a as ih =>
    rw [List.foldl_cons, flagChars_cons]
    cases h : isCatFlagToken a with
    | true =>
      rw [if_pos rfl, if_pos rfl, applyCatFlags_fst_append]
      exact ih _ _ _
    | false =>
      rw [if_neg (by simp), if_neg (by simp), List.nil_append]
      exact ih _ _ _

theorem parseCatArgs_options_eq (args : List String) :
    (parseCatArgs args).1 = (applyCatFlags CatOptions.default (flagChars args)).1 :=
  parseCatArgs_loop args CatOptions.default [] []

theorem applyCatFlag_b (opts : CatOptions) :
    applyCatFlag opts 'b' =
      ({ opts with number_nonblank_lines := true, number_lines := false }, []) := rfl

theorem applyCatFlags_nnb_mono (cs : List Char) (opts : CatOptions)
    (h : opts.number_nonblank_lines = true) :
    (applyCatFlags opts cs).1.number_nonblank_lines = true := by
  induction cs generalizing opts with
  | nil => exact h
  | cons c cs ih =>
    simp only [applyCatFlags]
    apply ih
    unfold applyCatFlag
    split_ifs <;> simp [h]

theorem applyCatFlag_nl_of_ne (opts : CatOptions) (c : Char)
    (hn : c ≠ 'n') (hb : c ≠ 'b') :
    (applyCatFlag opts c).1.number_lines = opts.number_lines := by
  unfold applyCatFlag
  split_ifs <;> simp_all

theorem applyCatFlags_nl_of_no_nb (cs : List Char) (opts : CatOptions)
    (hn : 'n' ∉ cs) (hb : 'b' ∉ cs) :
    (applyCatFlags opts cs).1.number_lines = opts.number_lines := by
  induction cs generalizing opts with
  | nil => rfl
  | cons c cs ih =>
    simp only [List.mem_cons, not_or] at hn hb
    simp only [applyCatFlags]
    rw [ih _ hn.2 hb.2]
    exact applyCatFlag_nl_of_ne opts c (fun h => hn.1 h.symm) (fun h => hb.1 h.symm)

theorem mod512_and_mask (n m : Nat) (hm : 511 &&& m = m) :
    n % 512 &&& m = n &&& m := by
  have h9 : n % 512 = n &&& 511 := by
    have h := Nat.and_pow_two_sub_one_eq_mod n 9
    norm_num at h
    exact h.symm
  rw [h9, Nat.and_assoc, hm]

theorem permString_mod (d : Bool) (mode : Nat) :
    permString d (mode % 512) = permString d mode := by
  unfold permString
  simp only [mod512_and_mask mode 256 (by decide), mod512_and_mask mode 128 (by decide),
    mod512_and_mask mode 64 (by decide), mod512_and_mask mode 32 (by decide),
    mod512_and_mask mode 16 (by decide), mod512_and_mask mode 8 (by decide),
    mod512_and_mask mode 4 (by decide), mod512_and_mask mode 2 (by decide),
    mod512_and_mask mode 1 (by decide)]

theorem process_line_eq_spec (line : String) (c : Nat) (opts : CatOptions) :
    process_line line c opts = processLineSpec line c opts := by
  unfold process_line processLineSpec
  simp only [blankSpec_eq]

theorem collect_entries_perm (l : List FileEntry) : (collect_entries l).Perm l :=
  List.mergeSort_perm l _

theorem collect_entries_pairwise (l : List FileEntry) :
    (collect_entries l).Pairwise (fun a b => charListLe a.name.data b.name.data = true) :=
  List.sorted_mergeSort
    (fun a b c hab hbc => charListLe_trans a.name.data b.name.data c.name.data hab hbc)
    (fun a b => charListLe_total a.name.data b.name.data)
    l

/-- Two sorted entry lists that are permutations of each other and have
pairwise-distinct names are equal. -/
theorem sorted_perm_nodup_eq :
    ∀ (l₁ l₂ : List FileEntry), l₁.Perm l₂ →
      l₁.Pairwise (fun a b => charListLe a.name.data b.name.data = true) →
      l₂.Pairwise (fun a b => charListLe a.name.data b.name.data = true) →
      (l₁.map FileEntry.name).Nodup → l₁ = l₂
  | [], l₂ => by
    intro hp _ _ _
    exact hp.symm.eq_nil.symm
  | a :: t₁, l₂ => by
    intro hp hs₁ hs₂ hnd
    cases l₂ with
    | nil => exact absurd hp.eq_nil (by simp)
    | cons b t₂ =>
      obtain ⟨ha, hs₁'⟩ := List.pairwise_cons.mp hs₁
      obtain ⟨hb, hs₂'⟩ := List.pairwise_cons.mp hs₂
      by_cases hab : a = b
      · subst hab
        have hnd' : (t₁.map FileEntry.name).Nodup :=
          (List.nodup_cons.mp (by simpa using hnd)).2
        rw [sorted_perm_nodup_eq t₁ t₂ hp.cons_inv hs₁' hs₂' hnd']
      · exfalso
        have haMem : a ∈ t₂ := by
          rcases List.mem_cons.mp (hp.subset (List.mem_cons_self a t₁)) with h | h
          · exact absurd h hab
          · exact h
        have hbMem : b ∈ t₁ := by
          rcases List.mem_cons.mp (hp.symm.subset (List.mem_cons_self b t₂)) with h | h
          · exact absurd h.symm hab
          · exact h
        have hnameEq : a.name = b.name :=
          String.ext (charListLe_antisymm _ _ (ha b hbMem) (hb a haMem))
        have hmem : a.name ∈ t₁.map FileEntry.name := by
          rw [hnameEq]
          exact List.mem_map_of_mem _ hbMem
        exact (List.nodup_cons.mp (by simpa using hnd)).1 hmem

/-- Sorting is insensitive to the enumeration order of the directory
as long as the entry names are distinct. -/
theorem collect_entries_eq_of_perm (l₁ l₂ : List FileEntry)
    (hp : l₁.Perm l₂) (hnd : (l₁.map FileEntry.name).Nodup) :
    collect_entries l₁ = collect_entries l₂ := by
  apply sorted_perm_nodup_eq
  · exact (collect_entries_perm l₁).trans (hp.trans (collect_entries_perm l₂).symm)
  · exact collect_entries_pairwise l₁
  · exact collect_entries_pairwise l₂
  · exact (((collect_entries_perm l₁).map FileEntry.name).nodup_iff).mpr hnd

/-! # Claims -/

/-- C1: the claim (and spec §6) says the `ls` target path is the first
positional (non-flag) argument, defaulting to `.`, and that a flag
token such as `-l` is never used as the target path.  The code takes
`args[1]` unconditionally: on `ls -l` the token `-l` is parsed as the
`l` flag and is nonetheless also used as the target path instead of
`.`, so the claim fails on the code at this input. -/
theorem ls_target_path_c1_eval :
    ls_dir_path ["ls", "-l"] = "-l" ∧
    ls_dir_path ["ls", "-l"] ≠ "." ∧
    firstCharIs (ls_dir_path ["ls", "-l"]) '-' = true ∧
    (parseLsArgs ["ls", "-l"]).long_format = true :=
  ⟨rfl, by decide, by decide, by decide⟩

/-- C2 (counterexample): parsing the token `-bn` processes `b` (which
clears `number_lines`) and then `n` (which re-sets it), so the final
parsed option set has both `number_lines` and `number_nonblank_lines`
true — mutual exclusion does not hold "regardless of flag order". -/
theorem cat_parse_c2_counterexample :
    (parseCatArgs ["-bn"]).1.number_lines = true ∧
    (parseCatArgs ["-bn"]).1.number_nonblank_lines = true :=
  ⟨by decide, by decide⟩

/-- C2 (amended): whenever the `b` flag is processed,
`number_nonblank_lines` is set and `number_lines` is cleared at that
moment; the mutual exclusion holds in the final parsed option set
whenever no `n` (and no further `b`) occurs among the flag characters
processed after the last `b`.  An `n` processed after a `b` re-sets
`number_lines`, so the exclusion is order-dependent. -/
theorem cat_parse_c2_amended :
    (∀ opts : CatOptions,
      (applyCatFlag opts 'b').1.number_nonblank_lines = true ∧
      (applyCatFlag opts 'b').1.number_lines = false) ∧
    (∀ (args : List String) (cs₁ cs₂ : List Char),
      flagChars args = cs₁ ++ 'b' :: cs₂ → 'n' ∉ cs₂ → 'b' ∉ cs₂ →
      (parseCatArgs args).1.number_nonblank_lines = true ∧
      (parseCatArgs args).1.number_lines = false) := by
  constructor
  · intro opts
    exact ⟨rfl, rfl⟩
  · intro args cs₁ cs₂ hsplit hn hb
    rw [parseCatArgs_options_eq, hsplit, applyCatFlags_fst_append]
    constructor
    · show (applyCatFlags _ ('b' :: cs₂)).1.number_nonblank_lines = true
      simp only [applyCatFlags]
      exact applyCatFlags_nnb_mono cs₂ _ rfl
    · show (applyCatFlags _ ('b' :: cs₂)).1.number_lines = false
      simp only [applyCatFlags]
      rw [applyCatFlags_nl_of_no_nb cs₂ _ hn hb]
      rfl

/-- C2 witness: `-nbE` has flag characters `n`, `b`, `E` with nothing
relevant after the `b`, and the parsed options satisfy the amended
mutual exclusion. -/
theorem cat_parse_c2_witness :
    (parseCatArgs ["-nbE"]).1.number_nonblank_lines = true ∧
    (parseCatArgs ["-nbE"]).1.number_lines = false :=
  cat_parse_c2_amended.2 ["-nbE"] ['n'] ['E'] (by decide) (by decide) (by decide)

/-- C3: on an existing directory, `ls` emits exactly the formatted
sorted-then-filtered entry list: the collected list is sorted
lexicographically by name and is a permutation of the enumeration, the
filtered survivors form a sublist of the sorted list (so filtering
never reorders), the output has exactly one line per surviving entry,
the result is independent of the enumeration order (given distinct
names), and the only filter keeps an entry iff `show_hidden` is set or
its name does not start with `.`. -/
theorem ls_listing_c3 (options : LsOptions) (fs : LsFs) (p : String)
    (entries entries' : List FileEntry)
    (hex : fs.pathExists p = true) (hdir : fs.isDir p = true)
    (hent : fs.entries p = entries) (hperm : entries.Perm entries')
    (hnd : (entries.map FileEntry.name).Nodup) :
    ls_run fs p options = (lsDirOutput options entries, .ok) ∧
    lsDirOutput options entries =
      ((collect_entries entries).filter (should_include options.show_hidden)).map
        (formatEntry options) ∧
    (collect_entries entries).Pairwise
      (fun a b => charListLe a.name.data b.name.data = true) ∧
    (collect_entries entries).Perm entries ∧
    ((collect_entries entries).filter (should_include options.show_hidden)).Sublist
      (collect_entries entries) ∧
    (lsDirOutput options entries).length =
      (entries.filter (should_include options.show_hidden)).length ∧
    lsDirOutput options entries = lsDirOutput options entries' ∧
    (∀ e : FileEntry, should_include options.show_hidden e =
      (options.show_hidden || !firstCharIs e.name '.')) := by
  refine ⟨?_, ?_, collect_entries_pairwise entries, collect_entries_perm entries,
    List.filter_sublist _, ?_, ?_, fun e => rfl⟩
  · simp [ls_run, hex, hdir, hent, lsDirOutput]
  · exact processEntries_eq_filter_map _ _ _
  · rw [lsDirOutput, processEntries_eq_filter_map, List.length_map]
    exact ((collect_entries_perm entries).filter _).length_eq
  · unfold lsDirOutput
    rw [collect_entries_eq_of_perm entries entries' hperm hnd]

/-- C3 witness: a three-entry directory enumerated in a different
order produces the same listing, and the default listing of
`[.git, a.txt, b]` is `[a.txt, b/]`. -/
theorem ls_listing_c3_witness :
    ls_run fsLsDirW "d" LsOptions.default = (["a.txt", "b/"], LsResult.ok) ∧
    lsDirOutput LsOptions.default entsW = lsDirOutput LsOptions.default entsW' := by
  have h := ls_listing_c3 LsOptions.default fsLsDirW "d" entsW entsW'
    (by decide) (by decide) rfl (by decide) (by decide)
  refine ⟨?_, h.2.2.2.2.2.2.1⟩
  rw [h.1]
  have hsort : collect_entries entsW = entsW := List.mergeSort_of_sorted (by decide)
  unfold lsDirOutput
  rw [hsort]
  decide

/-- C4: the counter starts at 1 for each file and never carries across
files (the loop output for `files ++ [p]` is the loop output for
`files` followed by `p`'s lines processed from counter 1); when
`number_nonblank_lines` is set and the line is blank the line is
emitted unnumbered with the counter unchanged; the counter is
incremented (and the line numbered) exactly when the first case does
not apply and `number_lines` is set or `number_nonblank_lines` is set
with a non-blank line; otherwise the line is emitted unnumbered.  The
per-line behaviour coincides with the spec's three-case rule
(`processLineSpec`). -/
theorem cat_numbering_c4 (line : String) (c : Nat) (opts : CatOptions)
    (fs : String → CatFile) (files : List String) (p : String) (ls : List String)
    (hp : fs p = CatFile.file ls) :
    process_line line c opts = processLineSpec line c opts ∧
    ((opts.number_nonblank_lines && isBlankLine line) = true →
      process_line line c opts = (format_line line none opts, c)) ∧
    ((process_line line c opts).2 = c + 1 ↔
      ((opts.number_nonblank_lines && isBlankLine line) = false ∧
       (opts.number_lines || (opts.number_nonblank_lines && !isBlankLine line)) = true)) ∧
    ((opts.number_nonblank_lines && isBlankLine line) = false →
      (opts.number_lines || (opts.number_nonblank_lines && !isBlankLine line)) = true →
      process_line line c opts = (format_line line (some c) opts, c + 1)) ∧
    ((opts.number_nonblank_lines && isBlankLine line) = false →
      (opts.number_lines || (opts.number_nonblank_lines && !isBlankLine line)) = false →
      process_line line c opts = (format_line line none opts, c)) ∧
    read_file ls opts = processLines ls 1 opts ∧
    (catLoop fs opts (files ++ [p])).1 = (catLoop fs opts files).1 ++ read_file ls opts := by
  refine ⟨process_line_eq_spec line c opts, ?_, ?_, ?_, ?_, rfl, ?_⟩
  · intro hb
    simp [process_line, hb]
  · cases hb1 : (opts.number_nonblank_lines && isBlankLine line) <;>
      cases hb2 : (opts.number_lines || (opts.number_nonblank_lines && !isBlankLine line)) <;>
      simp [process_line, hb1, hb2]
  · intro hb1 hb2
    simp [process_line, hb1, hb2]
  · intro hb1 hb2
    simp [process_line, hb1, hb2]
  · rw [catLoop_append]
    simp [catLoop, catFileStep, hp]

/-- C4 witness: a blank line under `-b` is unnumbered with the counter
unchanged, and in a two-file run the second file's lines are numbered
from 1 again. -/
theorem cat_numbering_c4_witness :
    process_line "" 3 { CatOptions.default with number_nonblank_lines := true } =
      (format_line "" none { CatOptions.default with number_nonblank_lines := true }, 3) ∧
    (catLoop fsCatW CatOptions.default (["one.txt"] ++ ["two.txt"])).1 =
      (catLoop fsCatW CatOptions.default ["one.txt"]).1 ++
        read_file ["x"] CatOptions.default := by
  constructor
  · exact (cat_numbering_c4 "" 3 { CatOptions.default with number_nonblank_lines := true }
      fsCatW [] "two.txt" ["x"] (by decide)).2.1 (by decide)
  · exact (cat_numbering_c4 "" 0 CatOptions.default
      fsCatW ["one.txt"] "two.txt" ["x"] (by decide)).2.2.2.2.2.2

/-- C5: per-line formatting equals the spec's assembly — optional
counter prefix right-justified in 6 characters followed by a tab, then
the content with every tab replaced by `^I` exactly when `show_tabs`
(the prefix is prepended afterwards, so its tab is never rewritten),
then a final `$` exactly when `show_ends`; with no number and both
flags off the formatting is the identity. -/
theorem cat_format_c5 (line : String) (n : Option Nat) (opts : CatOptions) :
    format_line line n opts = formatLineSpec line n opts ∧
    (∀ num : Nat, format_line line (some num) opts =
      rjust 6 (toString num) ++ "\t" ++ format_line line none opts) ∧
    (opts.show_tabs = false → opts.show_ends = false →
      format_line line none opts = line) := by
  refine ⟨?_, ?_, ?_⟩
  · cases n <;> cases hE : opts.show_ends <;>
      simp [format_line, formatLineSpec, hE, replaceTab_eq_tabSubstSpec,
        String.append_assoc]
  · intro num
    cases hE : opts.show_ends <;>
      simp [format_line, hE, String.append_assoc]
  · intro hT hE
    simp [format_line, hT, hE]

/-- C5 witness: with all flags off, a line containing a tab is
reproduced unchanged. -/
theorem cat_format_c5_witness :
    format_line "a\tb" none CatOptions.default = "a\tb" :=
  (cat_format_c5 "a\tb" none CatOptions.default).2.2 rfl rfl

/-- C6: `cat`'s entire observable run — stdout, stderr and the result —
is unchanged when only `squeeze_blank` differs: the flag is stored but
never consulted by the transform; and one output line is produced per
input line, so consecutive blank lines are never collapsed. -/
theorem cat_squeeze_c6 (fs : String → CatFile) (stdin : Except String (List String))
    (files : List String) (options : CatOptions) (b : Bool)
    (lines : List String) (counter : Nat) :
    cat_run fs stdin files { options with squeeze_blank := b } =
      cat_run fs stdin files options ∧
    (processLines lines counter options).length = lines.length := by
  constructor
  · unfold cat_run
    cases files with
    | nil => cases stdin <;> simp [processLines_squeeze]
    | cons f fl => simp [catLoop_squeeze]
  · exact processLines_length lines counter options

/-- C7: a missing path in the middle of `cat`'s file list contributes
exactly one stderr diagnostic and no stdout lines, the surrounding
files are processed in order, `run` still returns success and the exit
code is 0. -/
theorem cat_missing_file_c7 (fs : String → CatFile) (stdin : Except String (List String))
    (opts : CatOptions) (pre : List String) (p : String) (post : List String)
    (hp : fs p = CatFile.absent) :
    catLoop fs opts (pre ++ p :: post) =
      ((catLoop fs opts pre).1 ++ (catLoop fs opts post).1,
       (catLoop fs opts pre).2 ++
         ("cat: " ++ p ++ ": No such file or directory") :: (catLoop fs opts post).2) ∧
    cat_run fs stdin (pre ++ p :: post) opts = .ok (catLoop fs opts (pre ++ p :: post)) ∧
    catMainExit fs stdin (pre ++ p :: post) opts = 0 := by
  have hstep : catFileStep fs opts p =
      ([], ["cat: " ++ p ++ ": No such file or directory"]) := by
    unfold catFileStep
    rw [hp]
  have h1 : catLoop fs opts (pre ++ p :: post) =
      ((catLoop fs opts pre).1 ++ (catLoop fs opts post).1,
       (catLoop fs opts pre).2 ++
         ("cat: " ++ p ++ ": No such file or directory") :: (catLoop fs opts post).2) := by
    rw [catLoop_append]
    simp [catLoop, hstep]
  have h2 : cat_run fs stdin (pre ++ p :: post) opts =
      .ok (catLoop fs opts (pre ++ p :: post)) := by
    have hne : (pre ++ p :: post).isEmpty = false := by simp
    simp [cat_run, hne]
  exact ⟨h1, h2, by unfold catMainExit; rw [h2]⟩

/-- C7 witness: `cat one.txt missing two.txt` over a filesystem where
only the outer two exist: exit code 0, the two files' lines in order on
stdout, one diagnostic on stderr. -/
theorem cat_missing_file_c7_witness :
    catMainExit fsCatW (Except.ok []) (["one.txt"] ++ "missing" :: ["two.txt"])
      CatOptions.default = 0 ∧
    catLoop fsCatW CatOptions.default (["one.txt"] ++ "missing" :: ["two.txt"]) =
      (["a", "", "b", "x"], ["cat: missing: No such file or directory"]) := by
  have h := cat_missing_file_c7 fsCatW (Except.ok []) CatOptions.default
    ["one.txt"] "missing" ["two.txt"] (by decide)
  refine ⟨h.2.2, ?_⟩
  rw [h.1]
  decide

/-- C8: when the target path does not exist, `ls::run` returns the
NotFound error having produced no stdout lines, and the binary prints
the error on stderr and exits with status 1. -/
theorem ls_notfound_c8 (fs : LsFs) (p : String) (options : LsOptions)
    (h : fs.pathExists p = false) :
    ls_run fs p options = ([], .ioErr .notFound "Path does not exist") ∧
    lsMainExit fs p options = 1 ∧
    lsMainStderr fs p options = ["Error: Path does not exist"] := by
  have h1 : ls_run fs p options = ([], .ioErr .notFound "Path does not exist") := by
    simp [ls_run, h]
  exact ⟨h1, by unfold lsMainExit; rw [h1], by unfold lsMainStderr; rw [h1]; rfl⟩

/-- C8 witness: on an empty filesystem every lookup fails with
NotFound and exit status 1. -/
theorem ls_notfound_c8_witness :
    ls_run fsLsEmptyW "missing" LsOptions.default =
      ([], .ioErr .notFound "Path does not exist") ∧
    lsMainExit fsLsEmptyW "missing" LsOptions.default = 1 := by
  have h := ls_notfound_c8 fsLsEmptyW "missing" LsOptions.default rfl
  exact ⟨h.1, h.2.1⟩

/-- C9: the long-format permission string is 10 characters, starts
with `d` for a directory and `-` otherwise, depends only on the low 9
bits of the mode, and renders mode `0o755` as `-rwxr-xr-x` on a file
and `drwxr-xr-x` on a directory (also with the full `st_mode`
`0o40755`); the long format line starts with it. -/
theorem ls_perm_string_c9 (e : FileEntry) :
    (permString e.is_dir e.mode).length = 10 ∧
    (permString e.is_dir e.mode).data.head? = some (if e.is_dir then 'd' else '-') ∧
    permString e.is_dir (e.mode % 512) = permString e.is_dir e.mode ∧
    longFormat e = permString e.is_dir e.mode ++ " " ++ rjust 8 (toString e.size) ++
      " " ++ rjust 12 (toString e.modified) ++ " " ++ e.name ∧
    permString false 0o755 = "-rwxr-xr-x" ∧
    permString true 0o755 = "drwxr-xr-x" ∧
    permString true 0o40755 = "drwxr-xr-x" :=
  ⟨rfl, rfl, permString_mod e.is_dir e.mode, rfl, by decide, by decide, by decide⟩

/-- C10: on a path that exists and is not a directory, `ls::run`
prints exactly the path's final name component and succeeds, for every
option value; under the POSIX guarantee that an existing non-directory
path always has a final name component, the `unwrap` branch is never
the panic case. -/
theorem ls_file_branch_c10 (fs : LsFs) (p : String) (options : LsOptions)
    (hpos : PosixFileNames fs) (hex : fs.pathExists p = true)
    (hnd : fs.isDir p = false) :
    (fileName p).isSome = true ∧
    ∀ n : String, fileName p = some n → ls_run fs p options = ([n], .ok) := by
  refine ⟨hpos p hex hnd, ?_⟩
  intro n hn
  simp [ls_run, hex, hnd, hn]

/-- C10 witness: a filesystem with the single regular file
`notes/a.txt` satisfies the POSIX assumption, and `ls notes/a.txt`
prints `a.txt` and succeeds. -/
theorem ls_file_branch_c10_witness :
    fileName "notes/a.txt" = some "a.txt" ∧
    ls_run fsLsFileW "notes/a.txt" LsOptions.default = (["a.txt"], LsResult.ok) := by
  have hpos : PosixFileNames fsLsFileW := by
    intro q hq _
    have hq' : q = "notes/a.txt" := by
      simpa [fsLsFileW] using hq
    subst hq'
    decide
  have h := ls_file_branch_c10 fsLsFileW "notes/a.txt" LsOptions.default hpos
    (by decide) rfl
  exact ⟨by decide, h.2 "a.txt" (by decide)⟩

end CmdsLite
